import Mathlib

/-!
# Verification of the workflow graph builder

A shallow embedding of `packages/swc-plugin-workflow/transform/src/graph.rs`:
the data model (`WorkflowGraph`, `GraphNode`, `GraphEdge`, ...) and the
stateful `GraphBuilder` with its public operations
(`start_workflow`, `add_step_node`, `add_workflow_node`, `finish_workflow`,
`to_manifest`, `has_workflows`), followed by theorems about arbitrary
call sequences.

Modelling conventions:
* Rust `String` becomes Lean `String`; `format!` becomes string append
  (`format!("node_{}", n)` is `"node_" ++ Nat.repr n`, since Rust's
  `Display` for `usize` is plain decimal, as is `Nat.repr`).
* `usize` counters become `Nat` (the claims under study never reach
  `usize::MAX`, so wraparound is outside the modelled range).
* The `f64` fields `x`, `y` and `current_y` become `Nat`: the program only
  ever assigns `0.0`, `250.0` and values obtained by repeatedly adding
  `100.0` to `0.0`, all of which are exact in `f64` throughout the
  realizable range, so `Nat` arithmetic agrees with the `f64` arithmetic
  the program performs.
* `HashMap<String, WorkflowGraph>` becomes an association list with a
  replacing insert; the program observes the map only through key lookup,
  per-key in-place update and emptiness, all of which agree with the
  extensional map semantics of `HashMap`.
-/

/-- Structure `NodeData` from graph.rs: label, semantic kind, optional step reference,
source line. -/
structure NodeData where
  label : String
  node_kind : String
  step_id : Option String
  line : Nat
deriving DecidableEq, Repr

/-- Structure `Position` from graph.rs (f64 coordinates modelled as `Nat`, see header). -/
structure Position where
  x : Nat
  y : Nat
deriving DecidableEq, Repr

/-- Structure `GraphNode` from graph.rs. -/
structure GraphNode where
  id : String
  node_type : String
  position : Position
  data : NodeData
deriving DecidableEq, Repr

/-- Structure `GraphEdge` from graph.rs. -/
structure GraphEdge where
  id : String
  source : String
  target : String
  edge_type : String
deriving DecidableEq, Repr

/-- Structure `WorkflowGraph` from graph.rs. -/
structure WorkflowGraph where
  workflow_id : String
  workflow_name : String
  file_path : String
  nodes : List GraphNode
  edges : List GraphEdge
deriving DecidableEq, Repr

/-- Structure `WorkflowGraphManifest` from graph.rs; the `workflows` map is modelled as
an association list (see header). -/
structure WorkflowGraphManifest where
  version : String
  workflows : List (String × WorkflowGraph)
deriving DecidableEq, Repr

/-- State struct `GraphBuilder` from graph.rs. -/
structure GraphBuilder where
  graphs : List (String × WorkflowGraph)
  current_workflow : Option String
  current_y : Nat
  node_count : Nat
  prev_node_id : Option String
deriving DecidableEq, Repr

/-- Key lookup in the association list modelling `HashMap::get`. -/
def listLookup (k : String) : List (String × WorkflowGraph) → Option WorkflowGraph
  | [] => none
  | p :: rest => if p.1 = k then some p.2 else listLookup k rest

/-- Replacing insert modelling `HashMap::insert` / in-place update through
`get_mut`: the new binding shadows and removes any previous binding of the
same key.  (HashMap iteration order is irrelevant to the program, which only
looks the map up by key and tests emptiness.) -/
def listInsert (k : String) (v : WorkflowGraph)
    (l : List (String × WorkflowGraph)) : List (String × WorkflowGraph) :=
  (k, v) :: l.filter (fun p => p.1 ≠ k)

namespace GraphBuilder

/-- Models `GraphBuilder::new`. -/
def new : GraphBuilder :=
  { graphs := []
    current_workflow := none
    current_y := 0
    node_count := 0
    prev_node_id := none }

/-- The private `GraphBuilder::add_node`: no-op unless a workflow is current
and its graph is present; otherwise appends the node, wires an edge from
`prev_node_id` when set, and advances `prev_node_id`, `current_y`,
`node_count`. -/
def addNode (id node_type label node_kind : String) (step_id : Option String)
    (line : Nat) (b : GraphBuilder) : GraphBuilder :=
  match b.current_workflow with
  | none => b
  | some workflow_name =>
    match listLookup workflow_name b.graphs with
    | none => b
    | some graph =>
      let node : GraphNode :=
        { id := id
          node_type := node_type
          position := { x := 250, y := b.current_y }
          data := { label := label, node_kind := node_kind
                    step_id := step_id, line := line } }
      let edges1 : List GraphEdge :=
        match b.prev_node_id with
        | some prev_id =>
          graph.edges ++
            [{ id := "e_" ++ prev_id ++ "_" ++ id
               source := prev_id
               target := id
               edge_type := "default" }]
        | none => graph.edges
      let graph1 : WorkflowGraph :=
        { graph with nodes := graph.nodes ++ [node], edges := edges1 }
      { b with graphs := listInsert workflow_name graph1 b.graphs
               prev_node_id := some id
               current_y := b.current_y + 100
               node_count := b.node_count + 1 }

/-- Models `GraphBuilder::start_workflow`. -/
def startWorkflow (name file_path workflow_id : String)
    (b : GraphBuilder) : GraphBuilder :=
  let graph : WorkflowGraph :=
    { workflow_id := workflow_id
      workflow_name := name
      file_path := file_path
      nodes := []
      edges := [] }
  let b1 : GraphBuilder :=
    { b with graphs := listInsert name graph b.graphs
             current_workflow := some name
             current_y := 0
             node_count := 0
             prev_node_id := none }
  addNode "start" "workflowStart" ("Start: " ++ name) "workflow_start" none 0 b1

/-- Models `GraphBuilder::add_step_node`. -/
def addStepNode (step_name step_id : String) (line : Nat)
    (b : GraphBuilder) : GraphBuilder :=
  let node_id := "node_" ++ Nat.repr b.node_count
  addNode node_id "step" step_name "step" (some step_id) line b

/-- Models `GraphBuilder::add_workflow_node`. -/
def addWorkflowNode (workflow_name workflow_id : String) (line : Nat)
    (b : GraphBuilder) : GraphBuilder :=
  let node_id := "node_" ++ Nat.repr b.node_count
  addNode node_id "workflowCall" workflow_name "workflow" (some workflow_id) line b

/-- Models `GraphBuilder::finish_workflow`: appends the synthetic end node and the
closing edge when a workflow is current, then unconditionally clears
`current_workflow` and `prev_node_id`. -/
def finishWorkflow (b : GraphBuilder) : GraphBuilder :=
  let b1 : GraphBuilder :=
    match b.current_workflow with
    | none => b
    | some workflow_name =>
      match listLookup workflow_name b.graphs with
      | none => b
      | some graph =>
        let end_node : GraphNode :=
          { id := "end"
            node_type := "workflowEnd"
            position := { x := 250, y := b.current_y }
            data := { label := "Return", node_kind := "workflow_end"
                      step_id := none, line := 0 } }
        let edges1 : List GraphEdge :=
          match b.prev_node_id with
          | some prev_id =>
            graph.edges ++
              [{ id := "e_" ++ prev_id ++ "_end"
                 source := prev_id
                 target := "end"
                 edge_type := "default" }]
          | none => graph.edges
        let graph1 : WorkflowGraph :=
          { graph with nodes := graph.nodes ++ [end_node], edges := edges1 }
        { b with graphs := listInsert workflow_name graph1 b.graphs }
  { b1 with current_workflow := none, prev_node_id := none }

/-- Models `GraphBuilder::to_manifest`. -/
def toManifest (b : GraphBuilder) : WorkflowGraphManifest :=
  { version := "1.0.0", workflows := b.graphs }

/-- Models `GraphBuilder::has_workflows`. -/
def hasWorkflows (b : GraphBuilder) : Bool :=
  !b.graphs.isEmpty

end GraphBuilder

/-- One public call to the builder (the events the AST visitor can issue). -/
inductive BuilderCall where
  | start (name file_path workflow_id : String)
  | addStep (step_name step_id : String) (line : Nat)
  | addWorkflow (workflow_name workflow_id : String) (line : Nat)
  | finish
deriving DecidableEq, Repr

/-- Interpret one call on a builder state. -/
def execCall (c : BuilderCall) (b : GraphBuilder) : GraphBuilder :=
  match c with
  | .start n fp wid => b.startWorkflow n fp wid
  | .addStep sn sid line => b.addStepNode sn sid line
  | .addWorkflow wn wid line => b.addWorkflowNode wn wid line
  | .finish => b.finishWorkflow

/-- Interpret a call sequence, left to right. -/
def execCalls : List BuilderCall → GraphBuilder → GraphBuilder
  | [], b => b
  | c :: cs, b => execCalls cs (execCall c b)

/-- A builder state is reachable when some call sequence produces it from
`GraphBuilder.new`. -/
def Reachable (b : GraphBuilder) : Prop :=
  ∃ cs : List BuilderCall, execCalls cs GraphBuilder.new = b

example :
    (execCalls [.start "A" "f.ts" "w1", .addStep "S" "s1" 1]
        GraphBuilder.new).node_count = 2 := by decide

/-! ## Derived vocabulary

Closed forms for the values the builder constructs, used to state and prove
the structural theorems. -/

/-- The generated id of the node created when `node_count = i`
(`format!("node_{}", i)`). -/
def nodeId (i : Nat) : String := "node_" ++ Nat.repr i

/-- The node ids of a graph, in creation order. -/
def idsOf (g : WorkflowGraph) : List String := g.nodes.map (fun nd => nd.id)

/-- The synthetic start node inserted by `start_workflow` (it is inserted at
`current_y = 0`). -/
def startNode (name : String) : GraphNode :=
  { id := "start"
    node_type := "workflowStart"
    position := { x := 250, y := 0 }
    data := { label := "Start: " ++ name, node_kind := "workflow_start"
              step_id := none, line := 0 } }

/-- The synthetic end node appended by `finish_workflow` at height `y`. -/
def endNode (y : Nat) : GraphNode :=
  { id := "end"
    node_type := "workflowEnd"
    position := { x := 250, y := y }
    data := { label := "Return", node_kind := "workflow_end"
              step_id := none, line := 0 } }

/-- The edge the builder wires from node `src` to node `tgt`
(`format!("e_{}_{}", src, tgt)`). -/
def mkEdge (src tgt : String) : GraphEdge :=
  { id := "e_" ++ src ++ "_" ++ tgt
    source := src
    target := tgt
    edge_type := "default" }

/-- The full edge list of a linear chain through the given node ids. -/
def chainEdges : List String → List GraphEdge
  | a :: b :: rest => mkEdge a b :: chainEdges (b :: rest)
  | _ => []

/-! ## Decimal representation: `Nat.repr` is injective

Needed for uniqueness of the generated ids `node_1`, `node_2`, ... -/

/-- Numeric value of a decimal digit character. -/
def digitVal (c : Char) : Nat := c.toNat - 48

/-- Value of a big-endian decimal digit string. -/
def valOfDigits (l : List Char) : Nat :=
  l.foldl (fun acc c => acc * 10 + digitVal c) 0

theorem valOfDigits_append (l : List Char) (c : Char) :
    valOfDigits (l ++ [c]) = valOfDigits l * 10 + digitVal c := by
  simp [valOfDigits, List.foldl_append]

/-- Reference decimal printer by well-founded recursion (no fuel). -/
def toDigitsRec (n : Nat) : List Char :=
  if _h : n < 10 then [Nat.digitChar n]
  else toDigitsRec (n / 10) ++ [Nat.digitChar (n % 10)]
decreasing_by exact Nat.div_lt_self (by omega) (by omega)

theorem digitVal_digitChar {d : Nat} (hd : d < 10) :
    digitVal (Nat.digitChar d) = d := by
  interval_cases d <;> decide

theorem valOfDigits_toDigitsRec (n : Nat) :
    valOfDigits (toDigitsRec n) = n := by
  induction n using Nat.strong_induction_on with
  | _ n ih =>
    rw [toDigitsRec]
    by_cases h : n < 10
    · rw [dif_pos h]
      simpa [valOfDigits] using digitVal_digitChar h
    · rw [dif_neg h, valOfDigits_append,
        ih (n / 10) (Nat.div_lt_self (by omega) (by omega)),
        digitVal_digitChar (Nat.mod_lt n (by omega))]
      omega

theorem toDigitsCore_accum (fuel : Nat) :
    ∀ (n : Nat) (ds : List Char),
      Nat.toDigitsCore 10 fuel n ds = Nat.toDigitsCore 10 fuel n [] ++ ds := by
  induction fuel with
  | zero => intro n ds; simp [Nat.toDigitsCore]
  | succ fuel ih =>
    intro n ds
    simp only [Nat.toDigitsCore]
    by_cases h : n / 10 = 0
    · simp [h]
    · rw [if_neg h, if_neg h, ih (n / 10) (Nat.digitChar (n % 10) :: ds),
        ih (n / 10) [Nat.digitChar (n % 10)], List.append_assoc]
      rfl

theorem toDigitsCore_eq_toDigitsRec (n : Nat) :
    ∀ fuel : Nat, n < fuel → Nat.toDigitsCore 10 fuel n [] = toDigitsRec n := by
  induction n using Nat.strong_induction_on with
  | _ n ih =>
    intro fuel hf
    match fuel, hf with
    | fuel + 1, hf =>
      simp only [Nat.toDigitsCore]
      by_cases h : n / 10 = 0
      · have hn : n < 10 := by omega
        rw [if_pos h, toDigitsRec, dif_pos hn, Nat.mod_eq_of_lt hn]
      · have hn : ¬ n < 10 := by omega
        have hlt : n / 10 < n := Nat.div_lt_self (by omega) (by omega)
        rw [if_neg h, toDigitsCore_accum, ih (n / 10) hlt fuel (by omega)]
        conv_rhs => rw [toDigitsRec]
        rw [dif_neg hn]

theorem natRepr_injective {n m : Nat} (h : Nat.repr n = Nat.repr m) : n = m := by
  have h2 : Nat.toDigits 10 n = Nat.toDigits 10 m := by
    have hd := congrArg String.data h
    simpa [Nat.repr, List.asString] using hd
  rw [Nat.toDigits, Nat.toDigits,
    toDigitsCore_eq_toDigitsRec n (n + 1) (by omega),
    toDigitsCore_eq_toDigitsRec m (m + 1) (by omega)] at h2
  have := congrArg valOfDigits h2
  simpa [valOfDigits_toDigitsRec] using this

theorem nodeId_injective {i j : Nat} (h : nodeId i = nodeId j) : i = j := by
  have hd := congrArg String.data h
  simp only [nodeId, String.data_append] at hd
  exact natRepr_injective (String.ext (List.append_cancel_left hd))

theorem nodeId_ne_start (i : Nat) : nodeId i ≠ "start" := by
  intro h
  have hd := congrArg String.data h
  simp only [nodeId, String.data_append,
    show ("node_" : String).data = ['n', 'o', 'd', 'e', '_'] from rfl,
    show ("start" : String).data = ['s', 't', 'a', 'r', 't'] from rfl] at hd
  simp at hd

theorem nodeId_ne_end (i : Nat) : nodeId i ≠ "end" := by
  intro h
  have hd := congrArg String.data h
  simp only [nodeId, String.data_append,
    show ("node_" : String).data = ['n', 'o', 'd', 'e', '_'] from rfl,
    show ("end" : String).data = ['e', 'n', 'd'] from rfl] at hd
  simp at hd

/-! ## Association list lemmas -/

theorem listLookup_insert_self (k : String) (v : WorkflowGraph)
    (l : List (String × WorkflowGraph)) :
    listLookup k (listInsert k v l) = some v := by
  simp [listInsert, listLookup]

theorem listLookup_filter_ne {k k' : String} (h : k' ≠ k) :
    ∀ l : List (String × WorkflowGraph),
      listLookup k' (l.filter (fun p => p.1 ≠ k)) = listLookup k' l := by
  intro l
  induction l with
  | nil => rfl
  | cons p rest ih =>
    by_cases hp : p.1 = k
    · rw [List.filter_cons_of_neg (by simp [hp]), ih, listLookup,
        if_neg (fun hh : p.1 = k' => h (hh.symm.trans hp))]
    · rw [List.filter_cons_of_pos (by simp [hp]), listLookup, listLookup, ih]

theorem listLookup_insert_ne {k k' : String} (h : k' ≠ k) (v : WorkflowGraph)
    (l : List (String × WorkflowGraph)) :
    listLookup k' (listInsert k v l) = listLookup k' l := by
  rw [listInsert, listLookup, if_neg (fun hh => h hh.symm), listLookup_filter_ne h]

theorem listLookup_mem {k : String} {g : WorkflowGraph} :
    ∀ {l : List (String × WorkflowGraph)}, listLookup k l = some g → (k, g) ∈ l := by
  intro l
  induction l with
  | nil => intro h; cases h
  | cons p rest ih =>
    intro h
    rw [listLookup] at h
    by_cases hp : p.1 = k
    · rw [if_pos hp] at h
      have hg : p.2 = g := by injection h
      have : p = (k, g) := by
        cases p
        simp only [Prod.mk.injEq]
        exact ⟨hp, hg⟩
      exact this ▸ List.mem_cons_self _ _
    · rw [if_neg hp] at h
      exact List.mem_cons_of_mem _ (ih h)

theorem mem_listInsert {p : String × WorkflowGraph} {k : String}
    {v : WorkflowGraph} {l : List (String × WorkflowGraph)}
    (h : p ∈ listInsert k v l) : p = (k, v) ∨ (p ∈ l ∧ p.1 ≠ k) := by
  rcases List.mem_cons.1 h with h1 | h2
  · exact Or.inl h1
  · have hm := List.mem_filter.1 h2
    exact Or.inr ⟨hm.1, by simpa using hm.2⟩

theorem listLookup_ne_nil {k : String} {g : WorkflowGraph}
    {l : List (String × WorkflowGraph)} (h : listLookup k l = some g) :
    l ≠ [] := by
  intro hl
  rw [hl] at h
  cases h

/-! ## Chain edge lemmas -/

theorem chainEdges_length (l : List String) :
    (chainEdges l).length = l.length - 1 := by
  induction l with
  | nil => rfl
  | cons a rest ih =>
    cases rest with
    | nil => rfl
    | cons b rest2 =>
      simp only [chainEdges, List.length_cons] at ih ⊢
      omega

theorem chainEdges_concat {l : List String} {p : String} (x : String)
    (h : l.getLast? = some p) :
    chainEdges (l ++ [x]) = chainEdges l ++ [mkEdge p x] := by
  induction l with
  | nil => cases h
  | cons a rest ih =>
    cases rest with
    | nil =>
      have ha : a = p := by
        simpa [List.getLast?] using h
      subst ha
      rfl
    | cons b rest2 =>
      have h2 : (b :: rest2).getLast? = some p := by
        rwa [List.getLast?_cons_cons] at h
      show mkEdge a b :: chainEdges ((b :: rest2) ++ [x])
          = (mkEdge a b :: chainEdges (b :: rest2)) ++ [mkEdge p x]
      rw [ih h2]
      rfl

/-! ## Unfolding lemmas for the builder operations -/

theorem addNode_some_prev {b : GraphBuilder} {n p : String} {g : WorkflowGraph}
    (hc : b.current_workflow = some n) (hg : listLookup n b.graphs = some g)
    (hp : b.prev_node_id = some p)
    (id node_type label node_kind : String) (step_id : Option String) (line : Nat) :
    b.addNode id node_type label node_kind step_id line =
      { b with
        graphs := listInsert n
          ({ g with
             nodes := g.nodes ++
               [{ id := id, node_type := node_type
                  position := { x := 250, y := b.current_y }
                  data := { label := label, node_kind := node_kind
                            step_id := step_id, line := line } }]
             edges := g.edges ++ [mkEdge p id] }) b.graphs
        prev_node_id := some id
        current_y := b.current_y + 100
        node_count := b.node_count + 1 } := by
  unfold GraphBuilder.addNode
  rw [hc]
  dsimp only
  rw [hg]
  dsimp only
  rw [hp]
  rfl

theorem addNode_no_prev {b : GraphBuilder} {n : String} {g : WorkflowGraph}
    (hc : b.current_workflow = some n) (hg : listLookup n b.graphs = some g)
    (hp : b.prev_node_id = none)
    (id node_type label node_kind : String) (step_id : Option String) (line : Nat) :
    b.addNode id node_type label node_kind step_id line =
      { b with
        graphs := listInsert n
          ({ g with
             nodes := g.nodes ++
               [{ id := id, node_type := node_type
                  position := { x := 250, y := b.current_y }
                  data := { label := label, node_kind := node_kind
                            step_id := step_id, line := line } }] }) b.graphs
        prev_node_id := some id
        current_y := b.current_y + 100
        node_count := b.node_count + 1 } := by
  unfold GraphBuilder.addNode
  rw [hc]
  dsimp only
  rw [hg]
  dsimp only
  rw [hp]

theorem addNode_no_current {b : GraphBuilder}
    (hc : b.current_workflow = none)
    (id node_type label node_kind : String) (step_id : Option String) (line : Nat) :
    b.addNode id node_type label node_kind step_id line = b := by
  unfold GraphBuilder.addNode
  rw [hc]

theorem mkEdge_end (p : String) :
    ({ id := "e_" ++ p ++ "_end", source := p, target := "end"
       edge_type := "default" } : GraphEdge) = mkEdge p "end" := by
  unfold mkEdge
  have : "e_" ++ p ++ "_end" = "e_" ++ p ++ "_" ++ "end" := by
    apply String.ext
    simp [String.data_append]
  rw [this]

theorem finishWorkflow_some_prev {b : GraphBuilder} {n p : String} {g : WorkflowGraph}
    (hc : b.current_workflow = some n) (hg : listLookup n b.graphs = some g)
    (hp : b.prev_node_id = some p) :
    b.finishWorkflow =
      { b with
        graphs := listInsert n
          ({ g with
             nodes := g.nodes ++ [endNode b.current_y]
             edges := g.edges ++ [mkEdge p "end"] }) b.graphs
        current_workflow := none
        prev_node_id := none } := by
  unfold GraphBuilder.finishWorkflow
  rw [hc]
  dsimp only
  rw [hg]
  dsimp only
  rw [hp, ← mkEdge_end]
  rfl

theorem finishWorkflow_no_current {b : GraphBuilder}
    (hc : b.current_workflow = none) :
    b.finishWorkflow = { b with current_workflow := none, prev_node_id := none } := by
  unfold GraphBuilder.finishWorkflow
  rw [hc]

/-! ## The recording-state invariant -/

/-- Shape of the builder state while workflow `n` is being recorded with
current graph `g`: the graph is present, non-empty, chain-edged, and the
scalar fields track the node list. -/
def RecState (s : GraphBuilder) (n : String) (g : WorkflowGraph) : Prop :=
  s.current_workflow = some n ∧
  listLookup n s.graphs = some g ∧
  g.nodes ≠ [] ∧
  g.edges = chainEdges (idsOf g) ∧
  s.prev_node_id = (idsOf g).getLast? ∧
  s.node_count = g.nodes.length ∧
  s.current_y = 100 * g.nodes.length

/-- Whether a call is one of the two add-node operations. -/
def isAdd : BuilderCall → Bool
  | .addStep _ _ _ => true
  | .addWorkflow _ _ _ => true
  | _ => false

/-- The node an add call creates when the per-workflow counter is `m`
(the node is placed at height `100 * m`). -/
def addedNode (m : Nat) : BuilderCall → GraphNode
  | .addStep sn sid line =>
    { id := nodeId m, node_type := "step"
      position := { x := 250, y := 100 * m }
      data := { label := sn, node_kind := "step", step_id := some sid
                line := line } }
  | .addWorkflow wn wid line =>
    { id := nodeId m, node_type := "workflowCall"
      position := { x := 250, y := 100 * m }
      data := { label := wn, node_kind := "workflow", step_id := some wid
                line := line } }
  | _ =>
    { id := nodeId m, node_type := ""
      position := { x := 250, y := 100 * m }
      data := { label := "", node_kind := "", step_id := none, line := 0 } }

/-- The nodes a run of add calls creates, with the counter starting at `m`. -/
def addedNodes (m : Nat) : List BuilderCall → List GraphNode
  | [] => []
  | c :: cs => addedNode m c :: addedNodes (m + 1) cs

theorem addedNode_id (m : Nat) (c : BuilderCall) : (addedNode m c).id = nodeId m := by
  cases c <;> rfl

theorem addedNodes_length (m : Nat) (cs : List BuilderCall) :
    (addedNodes m cs).length = cs.length := by
  induction cs generalizing m with
  | nil => rfl
  | cons c cs ih => simp [addedNodes, ih]

theorem addedNodes_ids (m : Nat) (cs : List BuilderCall) :
    (addedNodes m cs).map (fun nd => nd.id) = (List.range' m cs.length).map nodeId := by
  induction cs generalizing m with
  | nil => rfl
  | cons c cs ih =>
    simp only [addedNodes, List.map_cons, addedNode_id, List.length_cons,
      List.range'_succ, ih]

theorem startWorkflow_recState (name fp wid : String) (b : GraphBuilder) :
    RecState (b.startWorkflow name fp wid) name
      { workflow_id := wid, workflow_name := name, file_path := fp
        nodes := [startNode name], edges := [] } := by
  unfold GraphBuilder.startWorkflow
  rw [addNode_no_prev rfl (listLookup_insert_self _ _ _) rfl]
  refine ⟨rfl, ?_, by simp, rfl, rfl, rfl, rfl⟩
  exact listLookup_insert_self _ _ _

theorem recState_add {s : GraphBuilder} {n : String} {g : WorkflowGraph}
    (h : RecState s n g) {c : BuilderCall} (hc : isAdd c = true) :
    RecState (execCall c s) n
      { g with nodes := g.nodes ++ [addedNode g.nodes.length c]
               edges := chainEdges (idsOf g ++ [nodeId g.nodes.length]) } := by
  obtain ⟨hcur, hg, hne, hch, hprev, hcount, hy⟩ := h
  have hids : idsOf g ≠ [] := by simp [idsOf, hne]
  obtain ⟨p, hp⟩ : ∃ q, (idsOf g).getLast? = some q := by
    cases hq : (idsOf g).getLast? with
    | none => exact absurd (List.getLast?_eq_none_iff.1 hq) hids
    | some q => exact ⟨q, rfl⟩
  have hps : s.prev_node_id = some p := hprev.trans hp
  have hedges : chainEdges (idsOf g ++ [nodeId g.nodes.length]) =
      g.edges ++ [mkEdge p (nodeId g.nodes.length)] := by
    rw [chainEdges_concat _ hp, hch]
  have hlast :
      (idsOf g ++ [nodeId g.nodes.length]).getLast? = some (nodeId g.nodes.length) :=
    List.getLast?_concat _
  cases c with
  | start _ _ _ => cases hc
  | finish => cases hc
  | addStep sn sid line =>
    have hstep : execCall (.addStep sn sid line) s =
        { s with
          graphs := listInsert n
            ({ g with nodes := g.nodes ++ [addedNode g.nodes.length (.addStep sn sid line)]
                      edges := chainEdges (idsOf g ++ [nodeId g.nodes.length]) }) s.graphs
          prev_node_id := some (nodeId g.nodes.length)
          current_y := s.current_y + 100
          node_count := s.node_count + 1 } := by
      show s.addStepNode sn sid line = _
      unfold GraphBuilder.addStepNode
      rw [addNode_some_prev hcur hg hps, hedges, hcount, hy]
      rfl
    rw [hstep]
    refine ⟨hcur, listLookup_insert_self _ _ _, by simp, ?_, ?_, ?_, ?_⟩
    · show chainEdges (idsOf g ++ [nodeId g.nodes.length]) =
        chainEdges (idsOf { g with nodes := g.nodes ++ [addedNode g.nodes.length (.addStep sn sid line)] })
      simp [idsOf, addedNode_id]
    · show some (nodeId g.nodes.length) = _
      rw [show idsOf { g with
            nodes := g.nodes ++ [addedNode g.nodes.length (.addStep sn sid line)]
            edges := chainEdges (idsOf g ++ [nodeId g.nodes.length]) } =
          idsOf g ++ [nodeId g.nodes.length] by simp [idsOf, addedNode_id], hlast]
    · show s.node_count + 1 = _
      simp [hcount]
    · show s.current_y + 100 = _
      simp only [List.length_append, List.length_cons, List.length_nil, hy]
      omega
  | addWorkflow wn wid line =>
    have hstep : execCall (.addWorkflow wn wid line) s =
        { s with
          graphs := listInsert n
            ({ g with nodes := g.nodes ++ [addedNode g.nodes.length (.addWorkflow wn wid line)]
                      edges := chainEdges (idsOf g ++ [nodeId g.nodes.length]) }) s.graphs
          prev_node_id := some (nodeId g.nodes.length)
          current_y := s.current_y + 100
          node_count := s.node_count + 1 } := by
      show s.addWorkflowNode wn wid line = _
      unfold GraphBuilder.addWorkflowNode
      rw [addNode_some_prev hcur hg hps, hedges, hcount, hy]
      rfl
    rw [hstep]
    refine ⟨hcur, listLookup_insert_self _ _ _, by simp, ?_, ?_, ?_, ?_⟩
    · show chainEdges (idsOf g ++ [nodeId g.nodes.length]) =
        chainEdges (idsOf { g with nodes := g.nodes ++ [addedNode g.nodes.length (.addWorkflow wn wid line)] })
      simp [idsOf, addedNode_id]
    · show some (nodeId g.nodes.length) = _
      rw [show idsOf { g with
            nodes := g.nodes ++ [addedNode g.nodes.length (.addWorkflow wn wid line)]
            edges := chainEdges (idsOf g ++ [nodeId g.nodes.length]) } =
          idsOf g ++ [nodeId g.nodes.length] by simp [idsOf, addedNode_id], hlast]
    · show s.node_count + 1 = _
      simp [hcount]
    · show s.current_y + 100 = _
      simp only [List.length_append, List.length_cons, List.length_nil, hy]
      omega

theorem execCalls_adds (adds : List BuilderCall) (hAdds : ∀ c ∈ adds, isAdd c = true)
    {s : GraphBuilder} {n : String} {g : WorkflowGraph} (h : RecState s n g) :
    RecState (execCalls adds s) n
      { g with nodes := g.nodes ++ addedNodes g.nodes.length adds
               edges := chainEdges
                 ((g.nodes ++ addedNodes g.nodes.length adds).map (fun nd => nd.id)) } := by
  induction adds generalizing s g with
  | nil =>
    obtain ⟨hcur, hg, hne, hch, hprev, hcount, hy⟩ := h
    have hgeq : ({ g with nodes := g.nodes ++ addedNodes g.nodes.length []
                          edges := chainEdges
                            ((g.nodes ++ addedNodes g.nodes.length []).map
                              (fun nd => nd.id)) } : WorkflowGraph) = g := by
      cases g with
      | mk wid wname fp nodes edges =>
        simp only [addedNodes, List.append_nil]
        simp only [idsOf] at hch
        rw [← hch]
    rw [show execCalls [] s = s from rfl, hgeq]
    exact ⟨hcur, hg, hne, hch, hprev, hcount, hy⟩
  | cons c cs ih =>
    have hc : isAdd c = true := hAdds c (List.mem_cons_self _ _)
    have hcs : ∀ x ∈ cs, isAdd x = true := fun x hx => hAdds x (List.mem_cons_of_mem _ hx)
    have h2 := ih hcs (recState_add h hc)
    rw [show execCalls (c :: cs) s = execCalls cs (execCall c s) from rfl]
    convert h2 using 2 <;> simp [addedNodes, List.append_assoc]

theorem execCalls_append (l1 l2 : List BuilderCall) (s : GraphBuilder) :
    execCalls (l1 ++ l2) s = execCalls l2 (execCalls l1 s) := by
  induction l1 generalizing s with
  | nil => rfl
  | cons c cs ih => simp [execCalls, ih]

theorem recState_finish {s : GraphBuilder} {n : String} {g : WorkflowGraph}
    (h : RecState s n g) :
    s.finishWorkflow =
      { s with
        graphs := listInsert n
          ({ g with nodes := g.nodes ++ [endNode (100 * g.nodes.length)]
                    edges := chainEdges (idsOf g ++ ["end"]) }) s.graphs
        current_workflow := none
        prev_node_id := none } := by
  obtain ⟨hcur, hg, hne, hch, hprev, hcount, hy⟩ := h
  have hids : idsOf g ≠ [] := by simp [idsOf, hne]
  obtain ⟨p, hp⟩ : ∃ q, (idsOf g).getLast? = some q := by
    cases hq : (idsOf g).getLast? with
    | none => exact absurd (List.getLast?_eq_none_iff.1 hq) hids
    | some q => exact ⟨q, rfl⟩
  rw [finishWorkflow_some_prev hcur hg (hprev.trans hp),
    chainEdges_concat _ hp, ← hch, ← hy]

/-! ## Claim theorems -/

/-- Claim C1: For every `k ≥ 0` and every call sequence
`start_workflow(n, f, i)` followed by `k` add-node calls followed by
`finish_workflow` on a fresh builder, the graph stored under `n` has exactly
`k + 2` nodes (the synthetic start node first, the `k` added nodes in call
order, the synthetic end node last) and exactly `k + 1` edges, each edge
connecting consecutively created nodes, forming a single linear path from the
node with id `"start"` to the node with id `"end"`. -/
theorem claim_C1 (n fp wid : String) (adds : List BuilderCall)
    (hAdds : ∀ c ∈ adds, isAdd c = true) :
    ∃ g : WorkflowGraph,
      listLookup n
          (execCalls (.start n fp wid :: (adds ++ [.finish])) GraphBuilder.new).graphs
        = some g ∧
      g.nodes.length = adds.length + 2 ∧
      g.edges.length = adds.length + 1 ∧
      g.nodes = startNode n :: (addedNodes 1 adds ++ [endNode (100 * (adds.length + 1))]) ∧
      g.edges = chainEdges (g.nodes.map (fun nd => nd.id)) ∧
      (g.nodes.map (fun nd => nd.id)).head? = some "start" ∧
      (g.nodes.map (fun nd => nd.id)).getLast? = some "end" := by
  have h2 := recState_finish
    (execCalls_adds adds hAdds (startWorkflow_recState n fp wid GraphBuilder.new))
  dsimp only at h2
  rw [show execCalls (.start n fp wid :: (adds ++ [.finish])) GraphBuilder.new
      = (execCalls adds (GraphBuilder.new.startWorkflow n fp wid)).finishWorkflow from by
    rw [show execCalls (.start n fp wid :: (adds ++ [.finish])) GraphBuilder.new
        = execCalls (adds ++ [.finish]) (GraphBuilder.new.startWorkflow n fp wid) from rfl,
      execCalls_append]
    rfl]
  rw [h2]
  refine ⟨_, listLookup_insert_self _ _ _, ?_, ?_, ?_, ?_, ?_, ?_⟩
  · simp [addedNodes_length]
  · rw [chainEdges_length]
    simp [idsOf, addedNodes_length]
  · simp [addedNodes_length, Nat.add_comm]
  · simp [idsOf, endNode, startNode]
  · simp [startNode]
  · simp only [idsOf, List.map_append]
    rw [List.getLast?_append]
    simp [endNode]

/-- Witness for claim C1: The hypothesis of `claim_C1` holds for the concrete add
list `[addStep, addWorkflow]`, and the conclusion follows at that input. -/
theorem claim_C1_witness :
    (∀ c ∈ [BuilderCall.addStep "Validate" "s1" 10,
            BuilderCall.addWorkflow "Sub" "w2" 20], isAdd c = true) ∧
    (∃ g : WorkflowGraph,
      listLookup "A"
          (execCalls (.start "A" "f.ts" "w1" ::
              ([BuilderCall.addStep "Validate" "s1" 10,
                BuilderCall.addWorkflow "Sub" "w2" 20] ++ [.finish]))
            GraphBuilder.new).graphs
        = some g ∧
      g.nodes.length = [BuilderCall.addStep "Validate" "s1" 10,
            BuilderCall.addWorkflow "Sub" "w2" 20].length + 2 ∧
      g.edges.length = [BuilderCall.addStep "Validate" "s1" 10,
            BuilderCall.addWorkflow "Sub" "w2" 20].length + 1 ∧
      g.nodes = startNode "A" ::
          (addedNodes 1 [BuilderCall.addStep "Validate" "s1" 10,
              BuilderCall.addWorkflow "Sub" "w2" 20] ++
            [endNode (100 * ([BuilderCall.addStep "Validate" "s1" 10,
                BuilderCall.addWorkflow "Sub" "w2" 20].length + 1))]) ∧
      g.edges = chainEdges (g.nodes.map (fun nd => nd.id)) ∧
      (g.nodes.map (fun nd => nd.id)).head? = some "start" ∧
      (g.nodes.map (fun nd => nd.id)).getLast? = some "end") :=
  ⟨by decide,
    claim_C1 "A" "f.ts" "w1"
      [BuilderCall.addStep "Validate" "s1" 10,
       BuilderCall.addWorkflow "Sub" "w2" 20] (by decide)⟩

/-- Counterexample to claim C2: On a fresh builder, `start_workflow("A", ...)`
followed by one `add_step_node` produces the generated id `"node_1"`, not
`"node_0"` as the claim states: the synthetic start node goes through the
shared insertion path, which increments `node_count`, so the counter is
already 1 at the first add-node call. -/
theorem claim_C2_counterexample :
    (listLookup "A"
        (execCalls [.start "A" "f.ts" "w1", .addStep "S" "s1" 1]
          GraphBuilder.new).graphs).map idsOf = some ["start", "node_1"] ∧
    (listLookup "A"
        (execCalls [.start "A" "f.ts" "w1", .addStep "S" "s1" 1]
          GraphBuilder.new).graphs).map idsOf ≠ some ["start", "node_0"] := by
  constructor <;> decide

/-- Claim C2 as amended: Within one recording, the generated ids of
caller-visible nodes are `"node_1"`, `"node_2"`, ..., increasing by exactly 1
per `add_step_node`/`add_workflow_node` call.  The synthetic start and end
nodes use the fixed ids `"start"` and `"end"`, but the start node *does*
consume a counter slot (it is inserted through the shared `add_node` path,
which increments `node_count`), while the end node does not; hence the first
add-node call after `start_workflow` produces id `"node_1"`, and after `k`
add-node calls `node_count` is `k + 1`. -/
theorem claim_C2 (n fp wid : String) (adds : List BuilderCall)
    (hAdds : ∀ c ∈ adds, isAdd c = true) :
    (∃ g : WorkflowGraph,
      listLookup n (execCalls (.start n fp wid :: adds) GraphBuilder.new).graphs
        = some g ∧
      g.nodes.map (fun nd => nd.id)
        = "start" :: (List.range' 1 adds.length).map nodeId) ∧
    (execCalls (.start n fp wid :: adds) GraphBuilder.new).node_count
      = adds.length + 1 ∧
    (∃ g : WorkflowGraph,
      listLookup n
          (execCalls (.start n fp wid :: (adds ++ [.finish])) GraphBuilder.new).graphs
        = some g ∧
      g.nodes.map (fun nd => nd.id)
        = ("start" :: (List.range' 1 adds.length).map nodeId) ++ ["end"]) ∧
    (execCalls (.start n fp wid :: (adds ++ [.finish])) GraphBuilder.new).node_count
      = adds.length + 1 := by
  have h1 := execCalls_adds adds hAdds (startWorkflow_recState n fp wid GraphBuilder.new)
  dsimp only at h1
  have h2 := recState_finish h1
  dsimp only at h2
  have hrw : execCalls (.start n fp wid :: (adds ++ [.finish])) GraphBuilder.new
      = (execCalls adds (GraphBuilder.new.startWorkflow n fp wid)).finishWorkflow := by
    rw [show execCalls (.start n fp wid :: (adds ++ [.finish])) GraphBuilder.new
        = execCalls (adds ++ [.finish]) (GraphBuilder.new.startWorkflow n fp wid) from rfl,
      execCalls_append]
    rfl
  obtain ⟨hcur, hg, hne, hch, hprev, hcount, hy⟩ := h1
  refine ⟨⟨_, hg, ?_⟩, ?_, ?_, ?_⟩
  · simp [startNode, addedNodes_ids]
  · rw [show (execCalls (.start n fp wid :: adds) GraphBuilder.new).node_count
        = (execCalls adds (GraphBuilder.new.startWorkflow n fp wid)).node_count from rfl,
      hcount]
    simp [addedNodes_length, Nat.add_comm]
  · rw [hrw, h2]
    refine ⟨_, listLookup_insert_self _ _ _, ?_⟩
    simp [idsOf, startNode, endNode, addedNodes_ids]
  · rw [hrw, h2]
    show (execCalls adds (GraphBuilder.new.startWorkflow n fp wid)).node_count
        = adds.length + 1
    rw [hcount]
    simp [addedNodes_length, Nat.add_comm]

/-- Witness for claim C2: The hypothesis of `claim_C2` holds for a concrete
two-call add list, and the conclusion (both before and after the finish
call) follows there. -/
theorem claim_C2_witness :
    (∀ c ∈ [BuilderCall.addStep "V" "s1" 3, BuilderCall.addStep "C" "s2" 4],
      isAdd c = true) ∧
    ((∃ g : WorkflowGraph,
      listLookup "B"
          (execCalls (.start "B" "b.ts" "w9" ::
              [BuilderCall.addStep "V" "s1" 3, BuilderCall.addStep "C" "s2" 4])
            GraphBuilder.new).graphs
        = some g ∧
      g.nodes.map (fun nd => nd.id)
        = "start" :: (List.range' 1
            [BuilderCall.addStep "V" "s1" 3,
             BuilderCall.addStep "C" "s2" 4].length).map nodeId) ∧
    (execCalls (.start "B" "b.ts" "w9" ::
        [BuilderCall.addStep "V" "s1" 3, BuilderCall.addStep "C" "s2" 4])
      GraphBuilder.new).node_count
      = [BuilderCall.addStep "V" "s1" 3,
         BuilderCall.addStep "C" "s2" 4].length + 1 ∧
    (∃ g : WorkflowGraph,
      listLookup "B"
          (execCalls (.start "B" "b.ts" "w9" ::
              ([BuilderCall.addStep "V" "s1" 3, BuilderCall.addStep "C" "s2" 4]
                ++ [.finish]))
            GraphBuilder.new).graphs
        = some g ∧
      g.nodes.map (fun nd => nd.id)
        = ("start" :: (List.range' 1
            [BuilderCall.addStep "V" "s1" 3,
             BuilderCall.addStep "C" "s2" 4].length).map nodeId) ++ ["end"]) ∧
    (execCalls (.start "B" "b.ts" "w9" ::
        ([BuilderCall.addStep "V" "s1" 3, BuilderCall.addStep "C" "s2" 4]
          ++ [.finish]))
      GraphBuilder.new).node_count
      = [BuilderCall.addStep "V" "s1" 3,
         BuilderCall.addStep "C" "s2" 4].length + 1) :=
  ⟨by decide,
    claim_C2 "B" "b.ts" "w9"
      [BuilderCall.addStep "V" "s1" 3, BuilderCall.addStep "C" "s2" 4] (by decide)⟩

/-- Counterexample to claim C3: The concrete sequence of the claim yields node ids
`["start", "node_1", "node_2", "end"]`, not `["start", "node_0", "node_1",
"end"]`. -/
theorem claim_C3_counterexample :
    (listLookup "Order"
        (execCalls [.start "Order" "order.ts" "wf1", .addStep "Validate" "s1" 10,
            .addStep "Charge" "s2" 20, .finish] GraphBuilder.new).graphs).map idsOf
      = some ["start", "node_1", "node_2", "end"] ∧
    (listLookup "Order"
        (execCalls [.start "Order" "order.ts" "wf1", .addStep "Validate" "s1" 10,
            .addStep "Charge" "s2" 20, .finish] GraphBuilder.new).graphs).map idsOf
      ≠ some ["start", "node_0", "node_1", "end"] := by
  constructor <;> decide

/-- Claim C3 as amended: On a fresh builder, `start_workflow("Order",
"order.ts", "wf1"); add_step_node("Validate", "s1", 10);
add_step_node("Charge", "s2", 20); finish_workflow()` produces a graph whose
node ids, in order, are `["start", "node_1", "node_2", "end"]` (not
`node_0`/`node_1`: the start node consumes the first counter slot), with y
positions 0, 100, 200, 300 respectively, and whose edges, in order, go
start→node_1, node_1→node_2, node_2→end. -/
theorem claim_C3 :
    (listLookup "Order"
        (execCalls [.start "Order" "order.ts" "wf1", .addStep "Validate" "s1" 10,
            .addStep "Charge" "s2" 20, .finish] GraphBuilder.new).graphs).map
        (fun g => (g.nodes.map (fun nd => nd.id),
                   g.nodes.map (fun nd => nd.position.y),
                   g.edges.map (fun e => (e.source, e.target))))
      = some (["start", "node_1", "node_2", "end"],
              [0, 100, 200, 300],
              [("start", "node_1"), ("node_1", "node_2"), ("node_2", "end")]) := by
  decide

/-! ## Global invariant over arbitrary call sequences -/

theorem startWorkflow_eq (name fp wid : String) (b : GraphBuilder) :
    b.startWorkflow name fp wid =
      { b with
        graphs := listInsert name
          ({ workflow_id := wid, workflow_name := name, file_path := fp
             nodes := [startNode name], edges := [] })
          (listInsert name
            ({ workflow_id := wid, workflow_name := name, file_path := fp
               nodes := [], edges := [] }) b.graphs)
        current_workflow := some name
        current_y := 100
        node_count := 1
        prev_node_id := some "start" } := by
  unfold GraphBuilder.startWorkflow
  rw [addNode_no_prev rfl (listLookup_insert_self _ _ _) rfl]
  rfl

theorem execCall_add_eq {s : GraphBuilder} {n : String} {g : WorkflowGraph}
    (h : RecState s n g) {c : BuilderCall} (hc : isAdd c = true) :
    execCall c s =
      { s with
        graphs := listInsert n
          ({ g with nodes := g.nodes ++ [addedNode g.nodes.length c]
                    edges := chainEdges (idsOf g ++ [nodeId g.nodes.length]) }) s.graphs
        prev_node_id := some (nodeId g.nodes.length)
        current_y := s.current_y + 100
        node_count := s.node_count + 1 } := by
  obtain ⟨hcur, hg, hne, hch, hprev, hcount, hy⟩ := h
  have hids : idsOf g ≠ [] := by simp [idsOf, hne]
  obtain ⟨p, hp⟩ : ∃ q, (idsOf g).getLast? = some q := by
    cases hq : (idsOf g).getLast? with
    | none => exact absurd (List.getLast?_eq_none_iff.1 hq) hids
    | some q => exact ⟨q, rfl⟩
  have hps : s.prev_node_id = some p := hprev.trans hp
  have hedges : chainEdges (idsOf g ++ [nodeId g.nodes.length]) =
      g.edges ++ [mkEdge p (nodeId g.nodes.length)] := by
    rw [chainEdges_concat _ hp, hch]
  cases c with
  | start _ _ _ => cases hc
  | finish => cases hc
  | addStep sn sid line =>
    show s.addStepNode sn sid line = _
    unfold GraphBuilder.addStepNode
    rw [addNode_some_prev hcur hg hps, hedges, hcount, hy]
    rfl
  | addWorkflow wn wid line =>
    show s.addWorkflowNode wn wid line = _
    unfold GraphBuilder.addWorkflowNode
    rw [addNode_some_prev hcur hg hps, hedges, hcount, hy]
    rfl

theorem addStepNode_no_current {s : GraphBuilder} (hc : s.current_workflow = none)
    (sn sid : String) (line : Nat) : s.addStepNode sn sid line = s := by
  unfold GraphBuilder.addStepNode
  exact addNode_no_current hc _ _ _ _ _ _

theorem addWorkflowNode_no_current {s : GraphBuilder} (hc : s.current_workflow = none)
    (wn wid : String) (line : Nat) : s.addWorkflowNode wn wid line = s := by
  unfold GraphBuilder.addWorkflowNode
  exact addNode_no_current hc _ _ _ _ _ _

/-- Well-formed id list: the fixed id `"start"`, then consecutively generated
ids `node_1 ... node_m`, optionally closed by the fixed id `"end"`. -/
def GoodIds (g : WorkflowGraph) : Prop :=
  ∃ m : Nat,
    idsOf g = "start" :: (List.range' 1 m).map nodeId ∨
    idsOf g = ("start" :: (List.range' 1 m).map nodeId) ++ ["end"]

/-- Every graph the builder ever stores: well-formed ids and a linear chain
of edges through the node list. -/
def GoodGraph (g : WorkflowGraph) : Prop :=
  GoodIds g ∧ g.edges = chainEdges (idsOf g)

/-- The global state invariant, preserved by every public call. -/
def BuilderInv (s : GraphBuilder) : Prop :=
  (∀ p ∈ s.graphs, GoodGraph p.2) ∧
  (match s.current_workflow with
   | none => s.prev_node_id = none
   | some n => ∃ g, RecState s n g ∧
       idsOf g = "start" :: (List.range' 1 (g.nodes.length - 1)).map nodeId)

theorem inv_new : BuilderInv GraphBuilder.new :=
  ⟨fun p hp => absurd hp (List.not_mem_nil p), rfl⟩

theorem inv_start {s : GraphBuilder} (h : BuilderInv s) (n fp wid : String) :
    BuilderInv (s.startWorkflow n fp wid) := by
  obtain ⟨hmem, _⟩ := h
  constructor
  · intro p hp
    rw [startWorkflow_eq] at hp
    rcases mem_listInsert hp with h1 | ⟨h2, hk⟩
    · subst h1
      exact ⟨⟨0, Or.inl rfl⟩, rfl⟩
    · rcases mem_listInsert h2 with h3 | ⟨h4, _⟩
      · exact absurd (congrArg Prod.fst h3) hk
      · exact hmem p h4
  · rw [show (s.startWorkflow n fp wid).current_workflow = some n from by
      rw [startWorkflow_eq]]
    exact ⟨_, startWorkflow_recState n fp wid s, by simp [idsOf, startNode]⟩

theorem inv_add {s : GraphBuilder} (h : BuilderInv s) {c : BuilderCall}
    (hc : isAdd c = true) : BuilderInv (execCall c s) := by
  obtain ⟨hmem, hcur⟩ := h
  cases hcw : s.current_workflow with
  | none =>
    have hnoop : execCall c s = s := by
      cases c with
      | start _ _ _ => cases hc
      | finish => cases hc
      | addStep sn sid line => exact addStepNode_no_current hcw sn sid line
      | addWorkflow wn wid line => exact addWorkflowNode_no_current hcw wn wid line
    rw [hnoop]
    exact ⟨hmem, hcur⟩
  | some n =>
    have hcur2 : ∃ g, RecState s n g ∧
        idsOf g = "start" :: (List.range' 1 (g.nodes.length - 1)).map nodeId := by
      rw [hcw] at hcur
      exact hcur
    obtain ⟨g, hrec, hshape⟩ := hcur2
    have hne := hrec.2.2.1
    have hlen : 1 ≤ g.nodes.length := List.length_pos.2 hne
    have hl : g.nodes.length - 1 + 1 = g.nodes.length := by omega
    have hids2 : idsOf g ++ [nodeId g.nodes.length]
        = "start" :: (List.range' 1 g.nodes.length).map nodeId := by
      rw [hshape, ← hl, List.range'_1_concat]
      simp [Nat.add_comm]
    have hg1ids : idsOf ({ g with
        nodes := g.nodes ++ [addedNode g.nodes.length c]
        edges := chainEdges (idsOf g ++ [nodeId g.nodes.length]) }) =
        idsOf g ++ [nodeId g.nodes.length] := by
      simp [idsOf, addedNode_id]
    constructor
    · intro p hp
      rw [execCall_add_eq hrec hc] at hp
      rcases mem_listInsert hp with h1 | ⟨h2, _⟩
      · subst h1
        refine ⟨⟨g.nodes.length, Or.inl ?_⟩, ?_⟩
        · rw [hg1ids, hids2]
        · rw [hg1ids]
      · exact hmem p h2
    · rw [show (execCall c s).current_workflow = some n from by
        rw [execCall_add_eq hrec hc]
        exact hrec.1]
      refine ⟨_, recState_add hrec hc, ?_⟩
      rw [hg1ids, hids2]
      simp [addedNode_id]

theorem inv_finish {s : GraphBuilder} (h : BuilderInv s) :
    BuilderInv s.finishWorkflow := by
  obtain ⟨hmem, hcur⟩ := h
  cases hcw : s.current_workflow with
  | none =>
    rw [finishWorkflow_no_current hcw]
    exact ⟨fun p hp => hmem p hp, rfl⟩
  | some n =>
    have hcur2 : ∃ g, RecState s n g ∧
        idsOf g = "start" :: (List.range' 1 (g.nodes.length - 1)).map nodeId := by
      rw [hcw] at hcur
      exact hcur
    obtain ⟨g, hrec, hshape⟩ := hcur2
    rw [recState_finish hrec]
    constructor
    · intro p hp
      rcases mem_listInsert hp with h1 | ⟨h2, _⟩
      · subst h1
        have hf : idsOf ({ g with
            nodes := g.nodes ++ [endNode (100 * g.nodes.length)]
            edges := chainEdges (idsOf g ++ ["end"]) }) = idsOf g ++ ["end"] := by
          simp [idsOf, endNode]
        refine ⟨⟨g.nodes.length - 1, Or.inr ?_⟩, ?_⟩
        · rw [hf, hshape]
        · rw [hf]
      · exact hmem p h2
    · rfl

theorem inv_execCall {s : GraphBuilder} (h : BuilderInv s) (c : BuilderCall) :
    BuilderInv (execCall c s) := by
  cases c with
  | start n fp wid => exact inv_start h n fp wid
  | addStep sn sid line => exact inv_add h rfl
  | addWorkflow wn wid line => exact inv_add h rfl
  | finish => exact inv_finish h

theorem inv_execCalls (cs : List BuilderCall) {s : GraphBuilder}
    (h : BuilderInv s) : BuilderInv (execCalls cs s) := by
  induction cs generalizing s with
  | nil => exact h
  | cons c cs ih => exact ih (inv_execCall h c)

theorem addNode_no_graph {b : GraphBuilder} {n : String}
    (hc : b.current_workflow = some n) (hg : listLookup n b.graphs = none)
    (id node_type label node_kind : String) (step_id : Option String) (line : Nat) :
    b.addNode id node_type label node_kind step_id line = b := by
  unfold GraphBuilder.addNode
  rw [hc]
  dsimp only
  rw [hg]

theorem finishWorkflow_no_graph {b : GraphBuilder} {n : String}
    (hc : b.current_workflow = some n) (hg : listLookup n b.graphs = none) :
    b.finishWorkflow = { b with current_workflow := none, prev_node_id := none } := by
  unfold GraphBuilder.finishWorkflow
  rw [hc]
  dsimp only
  rw [hg]

theorem finishWorkflow_no_prev {b : GraphBuilder} {n : String} {g : WorkflowGraph}
    (hc : b.current_workflow = some n) (hg : listLookup n b.graphs = some g)
    (hp : b.prev_node_id = none) :
    b.finishWorkflow =
      { b with
        graphs := listInsert n
          ({ g with nodes := g.nodes ++ [endNode b.current_y] }) b.graphs
        current_workflow := none
        prev_node_id := none } := by
  unfold GraphBuilder.finishWorkflow
  rw [hc]
  dsimp only
  rw [hg]
  dsimp only
  rw [hp]
  rfl

/-- Claim C4: For every sequence of public builder calls (including malformed
ones), every graph present in the builder map at any point satisfies
`edges.length = nodes.length - 1`, and its node list is non-empty (every
graph in the map was created by a `start_workflow`, which inserts the
synthetic start node). -/
theorem claim_C4 (cs : List BuilderCall) (n : String) (g : WorkflowGraph)
    (h : listLookup n (execCalls cs GraphBuilder.new).graphs = some g) :
    g.nodes ≠ [] ∧ g.edges.length = g.nodes.length - 1 := by
  have hinv := inv_execCalls cs inv_new
  obtain ⟨⟨m, hids⟩, hch⟩ := hinv.1 (n, g) (listLookup_mem h)
  constructor
  · intro hnil
    have hempty : idsOf g = [] := by simp [idsOf, hnil]
    rcases hids with h1 | h1 <;> rw [hempty] at h1 <;> simp at h1
  · rw [hch, chainEdges_length]
    simp [idsOf]

/-- Witness for claim C4: The hypothesis of `claim_C4` holds for a concrete
sequence that leaves one finished and one in-progress graph, and the
conclusion follows there. -/
theorem claim_C4_witness :
    (∃ g, listLookup "A"
        (execCalls [.start "A" "f.ts" "w1", .addStep "S" "s1" 1, .finish,
            .start "B" "g.ts" "w2"] GraphBuilder.new).graphs = some g ∧
      (g.nodes ≠ [] ∧ g.edges.length = g.nodes.length - 1)) := by
  refine ⟨_, rfl, ?_⟩
  exact claim_C4 [.start "A" "f.ts" "w1", .addStep "S" "s1" 1, .finish,
    .start "B" "g.ts" "w2"] "A" _ rfl

/-- Claim C7: For every call sequence, node ids are unique within each graph in
the manifest: the fixed ids `"start"` and `"end"` never collide with any
generated `"node_<i>"` id, and no two generated ids in one graph are equal —
i.e. the id list of every stored graph has no duplicates. -/
theorem claim_C7 (cs : List BuilderCall) (n : String) (g : WorkflowGraph)
    (h : listLookup n (execCalls cs GraphBuilder.new).graphs = some g) :
    (g.nodes.map (fun nd => nd.id)).Nodup := by
  have hinv := inv_execCalls cs inv_new
  obtain ⟨⟨m, hids⟩, _⟩ := hinv.1 (n, g) (listLookup_mem h)
  have hnodup1 : ("start" :: (List.range' 1 m).map nodeId).Nodup := by
    refine List.nodup_cons.2 ⟨?_, ?_⟩
    · intro hm
      obtain ⟨i, _, hieq⟩ := List.mem_map.1 hm
      exact nodeId_ne_start i hieq
    · exact List.Nodup.map (fun a b hab => nodeId_injective hab)
        (List.nodup_range' 1 m)
  have hnodup2 : (("start" :: (List.range' 1 m).map nodeId) ++ ["end"]).Nodup := by
    refine List.Nodup.append hnodup1 (List.nodup_singleton _) ?_
    intro a ha hb
    have hae : a = "end" := by simpa using hb
    subst hae
    rcases List.mem_cons.1 ha with h1 | h1
    · exact absurd h1.symm (by decide)
    · obtain ⟨i, _, hieq⟩ := List.mem_map.1 h1
      exact nodeId_ne_end i hieq
  show (idsOf g).Nodup
  rcases hids with h1 | h1
  · rw [h1]; exact hnodup1
  · rw [h1]; exact hnodup2

/-- Witness for claim C7: The hypothesis of `claim_C7` holds for a concrete
sequence, and id-uniqueness follows there. -/
theorem claim_C7_witness :
    (∃ g, listLookup "A"
        (execCalls [.start "A" "f.ts" "w1", .addStep "S" "s1" 1,
            .addWorkflow "W" "w2" 2, .finish] GraphBuilder.new).graphs = some g ∧
      (g.nodes.map (fun nd => nd.id)).Nodup) := by
  refine ⟨_, rfl, ?_⟩
  exact claim_C7 [.start "A" "f.ts" "w1", .addStep "S" "s1" 1,
    .addWorkflow "W" "w2" 2, .finish] "A" _ rfl

/-- Claim C6: In every reachable builder state with no current workflow,
`add_step_node`, `add_workflow_node` and `finish_workflow` leave the entire
builder state unchanged — no graph is modified, no counter is incremented,
and nothing fails — so the eventual manifest is unaffected by such calls. -/
theorem claim_C6 (s : GraphBuilder) (hr : Reachable s)
    (hc : s.current_workflow = none) :
    (∀ sn sid line, s.addStepNode sn sid line = s) ∧
    (∀ wn wid line, s.addWorkflowNode wn wid line = s) ∧
    s.finishWorkflow = s := by
  obtain ⟨cs, hcs⟩ := hr
  have hinv : BuilderInv s := hcs ▸ inv_execCalls cs inv_new
  have hprev : s.prev_node_id = none := by
    have h2 := hinv.2
    rw [hc] at h2
    exact h2
  refine ⟨fun sn sid line => addStepNode_no_current hc sn sid line,
          fun wn wid line => addWorkflowNode_no_current hc wn wid line, ?_⟩
  rw [finishWorkflow_no_current hc]
  cases s with
  | mk gr cw y cnt pv =>
    rw [show cw = none from hc, show pv = none from hprev]

/-- Witness for claim C6: The hypotheses of `claim_C6` hold for the fresh builder,
and the no-op conclusions follow there. -/
theorem claim_C6_witness :
    Reachable GraphBuilder.new ∧
    GraphBuilder.new.current_workflow = none ∧
    ((∀ sn sid line, GraphBuilder.new.addStepNode sn sid line = GraphBuilder.new) ∧
     (∀ wn wid line, GraphBuilder.new.addWorkflowNode wn wid line = GraphBuilder.new) ∧
     GraphBuilder.new.finishWorkflow = GraphBuilder.new) :=
  ⟨⟨[], rfl⟩, rfl, claim_C6 GraphBuilder.new ⟨[], rfl⟩ rfl⟩

/-- Claim C10: In every reachable state, if `current_workflow` is `some n` then
the graphs map contains key `n`; therefore the inner map lookup in `add_node`
and `finish_workflow` never fails, and an add-node or finish event issued
while a workflow is active is always applied to that workflow's graph (its
node list grows by exactly one), never silently dropped. -/
theorem claim_C10 (s : GraphBuilder) (n : String) (hr : Reachable s)
    (hc : s.current_workflow = some n) :
    ∃ g, listLookup n s.graphs = some g ∧
      (∀ sn sid line, ∃ g1,
        listLookup n (s.addStepNode sn sid line).graphs = some g1 ∧
        g1.nodes.length = g.nodes.length + 1) ∧
      (∀ wn wid line, ∃ g1,
        listLookup n (s.addWorkflowNode wn wid line).graphs = some g1 ∧
        g1.nodes.length = g.nodes.length + 1) ∧
      (∃ g1, listLookup n s.finishWorkflow.graphs = some g1 ∧
        g1.nodes.length = g.nodes.length + 1) := by
  obtain ⟨cs, hcs⟩ := hr
  have hinv : BuilderInv s := hcs ▸ inv_execCalls cs inv_new
  have hcur2 : ∃ g, RecState s n g ∧
      idsOf g = "start" :: (List.range' 1 (g.nodes.length - 1)).map nodeId := by
    have h2 := hinv.2
    rw [hc] at h2
    exact h2
  obtain ⟨g, hrec, _⟩ := hcur2
  refine ⟨g, hrec.2.1, ?_, ?_, ?_⟩
  · intro sn sid line
    have hstep := execCall_add_eq hrec
      (show isAdd (.addStep sn sid line) = true from rfl)
    rw [show s.addStepNode sn sid line = execCall (.addStep sn sid line) s from rfl,
      hstep]
    exact ⟨_, listLookup_insert_self _ _ _, by simp⟩
  · intro wn wid line
    have hstep := execCall_add_eq hrec
      (show isAdd (.addWorkflow wn wid line) = true from rfl)
    rw [show s.addWorkflowNode wn wid line
        = execCall (.addWorkflow wn wid line) s from rfl, hstep]
    exact ⟨_, listLookup_insert_self _ _ _, by simp⟩
  · rw [recState_finish hrec]
    exact ⟨_, listLookup_insert_self _ _ _, by simp⟩

/-- Witness for claim C10: The hypotheses of `claim_C10` hold right after a
`start_workflow` on a fresh builder, and the conclusion follows there. -/
theorem claim_C10_witness :
    Reachable (execCalls [.start "A" "f.ts" "w1"] GraphBuilder.new) ∧
    (execCalls [.start "A" "f.ts" "w1"] GraphBuilder.new).current_workflow
      = some "A" ∧
    (∃ g, listLookup "A"
        (execCalls [.start "A" "f.ts" "w1"] GraphBuilder.new).graphs = some g ∧
      (∀ sn sid line, ∃ g1,
        listLookup "A" ((execCalls [.start "A" "f.ts" "w1"]
            GraphBuilder.new).addStepNode sn sid line).graphs = some g1 ∧
        g1.nodes.length = g.nodes.length + 1) ∧
      (∀ wn wid line, ∃ g1,
        listLookup "A" ((execCalls [.start "A" "f.ts" "w1"]
            GraphBuilder.new).addWorkflowNode wn wid line).graphs = some g1 ∧
        g1.nodes.length = g.nodes.length + 1) ∧
      (∃ g1, listLookup "A"
          (execCalls [.start "A" "f.ts" "w1"] GraphBuilder.new).finishWorkflow.graphs
          = some g1 ∧
        g1.nodes.length = g.nodes.length + 1)) :=
  ⟨⟨[.start "A" "f.ts" "w1"], rfl⟩, rfl,
    claim_C10 (execCalls [.start "A" "f.ts" "w1"] GraphBuilder.new) "A"
      ⟨[.start "A" "f.ts" "w1"], rfl⟩ rfl⟩

theorem hasWorkflows_start (n fp wid : String) (s : GraphBuilder) :
    (s.startWorkflow n fp wid).hasWorkflows = true := by
  rw [startWorkflow_eq]
  simp [GraphBuilder.hasWorkflows, listInsert]

theorem hasWorkflows_addNode {s : GraphBuilder} (h : s.hasWorkflows = true)
    (id nt lb nk : String) (sid : Option String) (line : Nat) :
    (s.addNode id nt lb nk sid line).hasWorkflows = true := by
  cases hcw : s.current_workflow with
  | none => rw [addNode_no_current hcw]; exact h
  | some m =>
    cases hg : listLookup m s.graphs with
    | none => rw [addNode_no_graph hcw hg]; exact h
    | some g =>
      cases hp : s.prev_node_id with
      | none =>
        rw [addNode_no_prev hcw hg hp]
        simp [GraphBuilder.hasWorkflows, listInsert]
      | some p =>
        rw [addNode_some_prev hcw hg hp]
        simp [GraphBuilder.hasWorkflows, listInsert]

theorem hasWorkflows_finish {s : GraphBuilder} (h : s.hasWorkflows = true) :
    s.finishWorkflow.hasWorkflows = true := by
  cases hcw : s.current_workflow with
  | none => rw [finishWorkflow_no_current hcw]; exact h
  | some m =>
    cases hg : listLookup m s.graphs with
    | none => rw [finishWorkflow_no_graph hcw hg]; exact h
    | some g =>
      cases hp : s.prev_node_id with
      | none =>
        rw [finishWorkflow_no_prev hcw hg hp]
        simp [GraphBuilder.hasWorkflows, listInsert]
      | some p =>
        rw [finishWorkflow_some_prev hcw hg hp]
        simp [GraphBuilder.hasWorkflows, listInsert]

/-- Claim C9: `has_workflows()` returns false on a freshly constructed builder,
returns true immediately after the first `start_workflow` call, and remains
true after every subsequent call (no operation ever removes a recorded
workflow). -/
theorem claim_C9 :
    GraphBuilder.new.hasWorkflows = false ∧
    (∀ (n fp wid : String) (s : GraphBuilder),
      (s.startWorkflow n fp wid).hasWorkflows = true) ∧
    (∀ (c : BuilderCall) (s : GraphBuilder),
      s.hasWorkflows = true → (execCall c s).hasWorkflows = true) := by
  refine ⟨rfl, fun n fp wid s => hasWorkflows_start n fp wid s, fun c s h => ?_⟩
  cases c with
  | start n fp wid => exact hasWorkflows_start n fp wid s
  | addStep sn sid line => exact hasWorkflows_addNode h _ _ _ _ _ _
  | addWorkflow wn wid line => exact hasWorkflows_addNode h _ _ _ _ _ _
  | finish => exact hasWorkflows_finish h

/-- Witness for claim C9: The monotonicity part of `claim_C9` is applied at a
concrete state with one recorded workflow. -/
theorem claim_C9_witness :
    GraphBuilder.new.hasWorkflows = false ∧
    (GraphBuilder.new.startWorkflow "A" "f.ts" "w1").hasWorkflows = true ∧
    ((execCalls [.start "A" "f.ts" "w1"] GraphBuilder.new).hasWorkflows = true) ∧
    ((execCall .finish
        (execCalls [.start "A" "f.ts" "w1"] GraphBuilder.new)).hasWorkflows = true) :=
  ⟨claim_C9.1, claim_C9.2.1 "A" "f.ts" "w1" GraphBuilder.new, by decide,
    claim_C9.2.2 .finish (execCalls [.start "A" "f.ts" "w1"] GraphBuilder.new)
      (by decide)⟩

/-- Claim C8: When a workflow is current (and its graph present, which holds in
every reachable state by C10), `finish_workflow` appends exactly one end node
(fixed id `"end"`, type `workflowEnd`, label `"Return"`, kind `workflow_end`,
no step reference, line 0) at the current height, appends a closing edge from
`prev_node_id` to `"end"` when `prev_node_id` is set, and afterwards
`current_workflow` and `prev_node_id` are cleared while `node_count` and
`current_y` keep their values. -/
theorem claim_C8 (s : GraphBuilder) (n : String) (g : WorkflowGraph)
    (hc : s.current_workflow = some n) (hg : listLookup n s.graphs = some g) :
    listLookup n s.finishWorkflow.graphs = some
      ({ g with nodes := g.nodes ++ [endNode s.current_y]
                edges := g.edges ++ (match s.prev_node_id with
                  | some p => [mkEdge p "end"]
                  | none => []) }) ∧
    s.finishWorkflow.current_workflow = none ∧
    s.finishWorkflow.prev_node_id = none ∧
    s.finishWorkflow.node_count = s.node_count ∧
    s.finishWorkflow.current_y = s.current_y := by
  cases hp : s.prev_node_id with
  | some p =>
    rw [finishWorkflow_some_prev hc hg hp]
    exact ⟨listLookup_insert_self _ _ _, rfl, rfl, rfl, rfl⟩
  | none =>
    rw [finishWorkflow_no_prev hc hg hp]
    exact ⟨by rw [List.append_nil]; exact listLookup_insert_self _ _ _,
      rfl, rfl, rfl, rfl⟩

/-- Witness for claim C8: The hypotheses of `claim_C8` hold right after a
`start_workflow` on a fresh builder, and the conclusion follows there. -/
theorem claim_C8_witness :
    (execCalls [.start "A" "f.ts" "w1"] GraphBuilder.new).current_workflow
      = some "A" ∧
    listLookup "A"
        (execCalls [.start "A" "f.ts" "w1"] GraphBuilder.new).graphs
      = some ({ workflow_id := "w1", workflow_name := "A", file_path := "f.ts"
                nodes := [startNode "A"], edges := [] }) ∧
    (listLookup "A"
        (execCalls [.start "A" "f.ts" "w1"] GraphBuilder.new).finishWorkflow.graphs
      = some
        ({ ({ workflow_id := "w1", workflow_name := "A", file_path := "f.ts"
              nodes := [startNode "A"], edges := [] } : WorkflowGraph) with
           nodes := [startNode "A"] ++
             [endNode (execCalls [.start "A" "f.ts" "w1"]
                 GraphBuilder.new).current_y]
           edges := [] ++
             (match (execCalls [.start "A" "f.ts" "w1"]
                 GraphBuilder.new).prev_node_id with
               | some p => [mkEdge p "end"]
               | none => []) }) ∧
     (execCalls [.start "A" "f.ts" "w1"]
       GraphBuilder.new).finishWorkflow.current_workflow = none ∧
     (execCalls [.start "A" "f.ts" "w1"]
       GraphBuilder.new).finishWorkflow.prev_node_id = none ∧
     (execCalls [.start "A" "f.ts" "w1"]
       GraphBuilder.new).finishWorkflow.node_count
       = (execCalls [.start "A" "f.ts" "w1"] GraphBuilder.new).node_count ∧
     (execCalls [.start "A" "f.ts" "w1"]
       GraphBuilder.new).finishWorkflow.current_y
       = (execCalls [.start "A" "f.ts" "w1"] GraphBuilder.new).current_y) :=
  ⟨rfl, by decide,
    claim_C8 (execCalls [.start "A" "f.ts" "w1"] GraphBuilder.new) "A"
      ({ workflow_id := "w1", workflow_name := "A", file_path := "f.ts"
         nodes := [startNode "A"], edges := [] }) rfl (by decide)⟩

/-- Bisimulation relation for C5: the two states agree on the graph stored
under `n`, on all scalar recording state, and on the graph of whatever
workflow is current. -/
def SimRel (n : String) (s t : GraphBuilder) : Prop :=
  listLookup n s.graphs = listLookup n t.graphs ∧
  s.current_workflow = t.current_workflow ∧
  s.current_y = t.current_y ∧
  s.node_count = t.node_count ∧
  s.prev_node_id = t.prev_node_id ∧
  (∀ m, s.current_workflow = some m → listLookup m s.graphs = listLookup m t.graphs)

theorem simRel_addNode {n : String} {s t : GraphBuilder} (h : SimRel n s t)
    (id nt lb nk : String) (sid : Option String) (line : Nat) :
    SimRel n (s.addNode id nt lb nk sid line) (t.addNode id nt lb nk sid line) := by
  obtain ⟨hgn, hcw, hy, hcnt, hp, hcur⟩ := h
  cases hcw2 : s.current_workflow with
  | none =>
    have ht : t.current_workflow = none := by rw [← hcw, hcw2]
    rw [addNode_no_current hcw2, addNode_no_current ht]
    exact ⟨hgn, hcw, hy, hcnt, hp, hcur⟩
  | some m =>
    have ht : t.current_workflow = some m := by rw [← hcw, hcw2]
    have hm : listLookup m s.graphs = listLookup m t.graphs := hcur m hcw2
    cases hgm : listLookup m s.graphs with
    | none =>
      have htm : listLookup m t.graphs = none := by rw [← hm, hgm]
      rw [addNode_no_graph hcw2 hgm, addNode_no_graph ht htm]
      exact ⟨hgn, hcw, hy, hcnt, hp, hcur⟩
    | some g =>
      have htm : listLookup m t.graphs = some g := by rw [← hm, hgm]
      cases hps : s.prev_node_id with
      | none =>
        have htp : t.prev_node_id = none := by rw [← hp, hps]
        rw [addNode_no_prev hcw2 hgm hps, addNode_no_prev ht htm htp, hy]
        refine ⟨?_, hcw, rfl, by rw [hcnt], rfl, ?_⟩
        · by_cases hnm : n = m
          · subst hnm
            rw [listLookup_insert_self, listLookup_insert_self]
          · rw [listLookup_insert_ne hnm, listLookup_insert_ne hnm]
            exact hgn
        · intro m2 hm2
          have h3 : s.current_workflow = some m2 := hm2
          rw [hcw2] at h3
          have hm2m : m2 = m := (Option.some.inj h3).symm
          subst hm2m
          rw [listLookup_insert_self, listLookup_insert_self]
      | some p =>
        have htp : t.prev_node_id = some p := by rw [← hp, hps]
        rw [addNode_some_prev hcw2 hgm hps, addNode_some_prev ht htm htp, hy]
        refine ⟨?_, hcw, rfl, by rw [hcnt], rfl, ?_⟩
        · by_cases hnm : n = m
          · subst hnm
            rw [listLookup_insert_self, listLookup_insert_self]
          · rw [listLookup_insert_ne hnm, listLookup_insert_ne hnm]
            exact hgn
        · intro m2 hm2
          have h3 : s.current_workflow = some m2 := hm2
          rw [hcw2] at h3
          have hm2m : m2 = m := (Option.some.inj h3).symm
          subst hm2m
          rw [listLookup_insert_self, listLookup_insert_self]

theorem simRel_finish {n : String} {s t : GraphBuilder} (h : SimRel n s t) :
    SimRel n s.finishWorkflow t.finishWorkflow := by
  obtain ⟨hgn, hcw, hy, hcnt, hp, hcur⟩ := h
  cases hcw2 : s.current_workflow with
  | none =>
    have ht : t.current_workflow = none := by rw [← hcw, hcw2]
    rw [finishWorkflow_no_current hcw2, finishWorkflow_no_current ht]
    refine ⟨hgn, rfl, hy, hcnt, rfl, ?_⟩
    intro m2 hm2
    exact absurd (show (none : Option String) = some m2 from hm2) (by simp)
  | some m =>
    have ht : t.current_workflow = some m := by rw [← hcw, hcw2]
    have hm : listLookup m s.graphs = listLookup m t.graphs := hcur m hcw2
    cases hgm : listLookup m s.graphs with
    | none =>
      have htm : listLookup m t.graphs = none := by rw [← hm, hgm]
      rw [finishWorkflow_no_graph hcw2 hgm, finishWorkflow_no_graph ht htm]
      refine ⟨hgn, rfl, hy, hcnt, rfl, ?_⟩
      intro m2 hm2
      exact absurd (show (none : Option String) = some m2 from hm2) (by simp)
    | some g =>
      have htm : listLookup m t.graphs = some g := by rw [← hm, hgm]
      cases hps : s.prev_node_id with
      | none =>
        have htp : t.prev_node_id = none := by rw [← hp, hps]
        rw [finishWorkflow_no_prev hcw2 hgm hps, finishWorkflow_no_prev ht htm htp, hy]
        refine ⟨?_, rfl, rfl, hcnt, rfl, ?_⟩
        · by_cases hnm : n = m
          · subst hnm
            rw [listLookup_insert_self, listLookup_insert_self]
          · rw [listLookup_insert_ne hnm, listLookup_insert_ne hnm]
            exact hgn
        · intro m2 hm2
          exact absurd (show (none : Option String) = some m2 from hm2) (by simp)
      | some p =>
        have htp : t.prev_node_id = some p := by rw [← hp, hps]
        rw [finishWorkflow_some_prev hcw2 hgm hps, finishWorkflow_some_prev ht htm htp, hy]
        refine ⟨?_, rfl, rfl, hcnt, rfl, ?_⟩
        · by_cases hnm : n = m
          · subst hnm
            rw [listLookup_insert_self, listLookup_insert_self]
          · rw [listLookup_insert_ne hnm, listLookup_insert_ne hnm]
            exact hgn
        · intro m2 hm2
          exact absurd (show (none : Option String) = some m2 from hm2) (by simp)

theorem simRel_execCall {n : String} {s t : GraphBuilder} (h : SimRel n s t)
    (c : BuilderCall) : SimRel n (execCall c s) (execCall c t) := by
  cases c with
  | start m fp wid =>
    show SimRel n (s.startWorkflow m fp wid) (t.startWorkflow m fp wid)
    obtain ⟨hgn, _, _, _, _, _⟩ := h
    rw [startWorkflow_eq, startWorkflow_eq]
    refine ⟨?_, rfl, rfl, rfl, rfl, ?_⟩
    · by_cases hnm : n = m
      · subst hnm
        rw [listLookup_insert_self, listLookup_insert_self]
      · rw [listLookup_insert_ne hnm, listLookup_insert_ne hnm,
            listLookup_insert_ne hnm, listLookup_insert_ne hnm]
        exact hgn
    · intro m2 hm2
      have hm2m : m2 = m := (Option.some.inj (show some m = some m2 from hm2)).symm
      subst hm2m
      rw [listLookup_insert_self, listLookup_insert_self]
  | addStep sn sid line =>
    show SimRel n (s.addNode ("node_" ++ Nat.repr s.node_count) "step" sn "step"
        (some sid) line)
      (t.addNode ("node_" ++ Nat.repr t.node_count) "step" sn "step"
        (some sid) line)
    rw [h.2.2.2.1]
    exact simRel_addNode h _ _ _ _ _ _
  | addWorkflow wn wid line =>
    show SimRel n (s.addNode ("node_" ++ Nat.repr s.node_count) "workflowCall" wn
        "workflow" (some wid) line)
      (t.addNode ("node_" ++ Nat.repr t.node_count) "workflowCall" wn
        "workflow" (some wid) line)
    rw [h.2.2.2.1]
    exact simRel_addNode h _ _ _ _ _ _
  | finish => exact simRel_finish h

theorem simRel_execCalls (cs : List BuilderCall) {n : String}
    {s t : GraphBuilder} (h : SimRel n s t) :
    SimRel n (execCalls cs s) (execCalls cs t) := by
  induction cs generalizing s t with
  | nil => exact h
  | cons c cs ih => exact ih (simRel_execCall h c)

theorem simRel_start_same (n fp wid : String) (s t : GraphBuilder) :
    SimRel n (s.startWorkflow n fp wid) (t.startWorkflow n fp wid) := by
  rw [startWorkflow_eq, startWorkflow_eq]
  refine ⟨?_, rfl, rfl, rfl, rfl, ?_⟩
  · rw [listLookup_insert_self, listLookup_insert_self]
  · intro m2 hm2
    have hm2n : m2 = n := (Option.some.inj (show some n = some m2 from hm2)).symm
    subst hm2n
    rw [listLookup_insert_self, listLookup_insert_self]

/-- Claim C5: Calling `start_workflow` twice with the same name (with any calls
in between) replaces the first graph wholesale and raises no error: after any
continuation, the manifest entry under that name is exactly what the second
recording alone would have produced, and all per-workflow counters
(`current_y`, `node_count`, `prev_node_id`) are reset at the second start
(and then advanced once by the synthetic start node). -/
theorem claim_C5 (n f1 i1 f2 i2 : String) (mid rest : List BuilderCall) :
    listLookup n
        (execCalls (.start n f1 i1 :: (mid ++ (.start n f2 i2 :: rest)))
          GraphBuilder.new).graphs
      = listLookup n
        (execCalls (.start n f2 i2 :: rest) GraphBuilder.new).graphs ∧
    ((execCalls mid (execCall (.start n f1 i1)
        GraphBuilder.new)).startWorkflow n f2 i2).current_workflow = some n ∧
    ((execCalls mid (execCall (.start n f1 i1)
        GraphBuilder.new)).startWorkflow n f2 i2).node_count = 1 ∧
    ((execCalls mid (execCall (.start n f1 i1)
        GraphBuilder.new)).startWorkflow n f2 i2).current_y = 100 ∧
    ((execCalls mid (execCall (.start n f1 i1)
        GraphBuilder.new)).startWorkflow n f2 i2).prev_node_id = some "start" := by
  refine ⟨?_, ?_, ?_, ?_, ?_⟩
  · have hsim := simRel_execCalls rest
      (simRel_start_same n f2 i2
        (execCalls mid (execCall (.start n f1 i1) GraphBuilder.new))
        GraphBuilder.new)
    rw [show execCalls (.start n f1 i1 :: (mid ++ (.start n f2 i2 :: rest)))
          GraphBuilder.new
        = execCalls (mid ++ (.start n f2 i2 :: rest))
            (execCall (.start n f1 i1) GraphBuilder.new) from rfl,
      execCalls_append]
    exact hsim.1
  · rw [startWorkflow_eq]
  · rw [startWorkflow_eq]
  · rw [startWorkflow_eq]
  · rw [startWorkflow_eq]
